import Mathlib

/-!
Shallow embedding of the collection-statistics logic of the MongoDB Explorer
repository (`updated_pipeline.py` and `mongo.py`).

The embedded functions mirror, line by line, the Python source:
* `get_detailed_collection_stats` (updated_pipeline.py, lines 97-182),
* the exact single-field analysis of the "Analyze Field" tab
  (updated_pipeline.py lines 584-597 / mongo.py lines 293-306).

Python dynamically-typed values are modelled by `PyValue` (floats and
driver-specific types such as ObjectId are not needed by any claim and are
omitted; the value universe is otherwise the JSON-ish one the spec's data
model describes).  Machine-level numerics in the source are plain Python
ints and exact float divisions of small counts; they are modelled by `Nat`
and `ℚ`.
-/

/-- A dynamically typed value of a sampled document. -/
inductive PyValue where
  | vnone : PyValue
  | vbool : Bool → PyValue
  | vint : Int → PyValue
  | vstr : String → PyValue
  | vlist : List PyValue → PyValue
  | vdict : List (String × PyValue) → PyValue

open PyValue

mutual

/-- Structural boolean equality on values.  (Python `==` on lists and dicts
is deep structural equality; for dicts it is additionally order-insensitive,
but no modelled code path ever compares two composite values, since they
are filtered out before any set is built, so order-sensitive comparison is
an adequate stand-in there.) -/
def PyValue.beq : PyValue → PyValue → Bool
  | vnone, vnone => true
  | vbool a, vbool b => a == b
  | vint a, vint b => a == b
  | vstr a, vstr b => a == b
  | vlist as2, vlist bs => PyValue.beqList as2 bs
  | vdict as2, vdict bs => PyValue.beqDict as2 bs
  | _, _ => false

/-- Elementwise equality of value lists. -/
def PyValue.beqList : List PyValue → List PyValue → Bool
  | [], [] => true
  | a :: as2, b :: bs => PyValue.beq a b && PyValue.beqList as2 bs
  | _, _ => false

/-- Entrywise equality of key-value lists. -/
def PyValue.beqDict : List (String × PyValue) → List (String × PyValue) → Bool
  | [], [] => true
  | (k, v) :: as2, (k2, w) :: bs => k == k2 && PyValue.beq v w && PyValue.beqDict as2 bs
  | _, _ => false

end

instance : BEq PyValue := ⟨PyValue.beq⟩

/-- `type(v).__name__` of the Python runtime. -/
def typeName : PyValue → String
  | vnone => "NoneType"
  | vbool _ => "bool"
  | vint _ => "int"
  | vstr _ => "str"
  | vlist _ => "list"
  | vdict _ => "dict"

/-- `isinstance(v, (dict, list))`: the composite (non-scalar) test used at
updated_pipeline.py lines 157 and 178. -/
def isComposite : PyValue → Bool
  | vlist _ => true
  | vdict _ => true
  | _ => false

/-- The single-quote character used by Python `repr` on strings. -/
def quoteChar : String := String.singleton (Char.ofNat 39)

mutual

/-- Python `repr(v)`: scalar cases match CPython; strings are rendered with
the single-quote delimiter of the common case (CPython switches delimiters
only for strings that themselves contain a quote, a corner no theorem below
depends on, as all theorems are parametric in the rendering). -/
def pyRepr : PyValue → String
  | vnone => "None"
  | vbool true => "True"
  | vbool false => "False"
  | vint n => toString n
  | vstr s => quoteChar ++ s ++ quoteChar
  | vlist es => "[" ++ ", ".intercalate (pyReprList es) ++ "]"
  | vdict kvs => "\x7b" ++ ", ".intercalate (pyReprDict kvs) ++ "\x7d"

/-- `repr` of each element of a list. -/
def pyReprList : List PyValue → List String
  | [] => []
  | e :: es => pyRepr e :: pyReprList es

/-- `"key_repr: value_repr"` for each entry of a dict. -/
def pyReprDict : List (String × PyValue) → List String
  | [] => []
  | (k, v) :: kvs => (quoteChar ++ k ++ quoteChar ++ ": " ++ pyRepr v) :: pyReprDict kvs

end

/-- Python `str(v)` as used at updated_pipeline.py line 162: identical to
`repr` except that a top-level string is rendered without quotes. -/
def pyStr : PyValue → String
  | vstr s => s
  | v => pyRepr v

/-- Python `==` on sampled values.  Booleans compare equal to the
corresponding ints (`True == 1`), as in CPython; all other cases are
structural.  Composite values never reach an equality comparison in the
modelled code paths (they are filtered out before the `set(...)` is built
at updated_pipeline.py line 178), so their branch is plain structural
equality. -/
def pyEq (a b : PyValue) : Bool :=
  match a, b with
  | vbool x, vint n => (if x then (1 : Int) else 0) == n
  | vint n, vbool x => n == (if x then (1 : Int) else 0)
  | _, _ => a == b

/-- A sampled document: an ordered mapping from field name to value
(a Python `dict` as returned by the driver). -/
def Record : Type := List (String × PyValue)

/-- `field in doc`. -/
def Record.hasKey (d : Record) (f : String) : Bool :=
  (d.map Prod.fst).contains f

/-- `doc.get(field)` under a `field in doc` guard (every use in the source
is so guarded); absent keys give Python `None`. -/
def Record.getVal (d : Record) (f : String) : PyValue :=
  match d.find? (fun p => p.1 = f) with
  | some p => p.2
  | none => vnone

/-- `doc.keys()`. -/
def Record.keys (d : Record) : List String := d.map Prod.fst

/-- First-match association lookup (Python `dict[key]` on the result
dictionaries, whose keys are unique by construction). -/
def findEntry {β : Type} : List (String × β) → String → Option β
  | [], _ => none
  | (k, v) :: rest, key => if key = k then some v else findEntry rest key

/-- The Python `set` built by repeated insertion (`set.update` /
`set.add`), enumerated as a duplicate-free list. -/
def pySet (l : List String) : List String :=
  l.foldl (fun acc x => if x ∈ acc then acc else acc ++ [x]) []

/-- `all_fields`: union of the key sets of all sampled documents
(updated_pipeline.py lines 119-121). -/
def allFields (sample : List Record) : List String :=
  pySet (sample.flatMap Record.keys)

/-- One `value_counts` / `field_types[field]` bucket update: Python
`d[k] += 1` resp. `d[k] = 1` on an insertion-ordered dict. -/
def bump (k : String) : List (String × Nat) → List (String × Nat)
  | [] => [(k, 1)]
  | (k2, n) :: rest => if k = k2 then (k2, n + 1) :: rest else (k2, n) :: bump k rest

/-- The counting dict built by iterating a list left to right
(updated_pipeline.py lines 159-166 and 139-146). -/
def valueCounts (l : List String) : List (String × Nat) :=
  l.foldl (fun acc v => bump v acc) []

/-- `sorted(value_counts.items(), key=lambda x: x[1], reverse=True)`:
Python's stable descending sort by count.  `List.insertionSort` with this
relation is stable in exactly the same sense (equal-count entries keep
their relative order), hence computes the same list. -/
def sortByCountDesc (l : List (String × Nat)) : List (String × Nat) :=
  List.insertionSort (fun a b => b.2 ≤ a.2) l

/-- Index of the first occurrence of `k` in `l` (`l |>.length` if absent). -/
def firstIdx (l : List String) (k : String) : Nat :=
  match l with
  | [] => 0
  | x :: xs => if x = k then 0 else firstIdx xs k + 1

/-- The values of `field` over the sampled docs that contain it:
`[doc.get(field) for doc in sample_docs if field in doc]`
(updated_pipeline.py line 154). -/
def fieldValues (sample : List Record) (f : String) : List PyValue :=
  (sample.filter (fun d => d.hasKey f)).map (fun d => d.getVal f)

/-- Python `set(...)` of values under `==`, enumerated as a list of class
representatives. -/
def pyDedup (l : List PyValue) : List PyValue :=
  l.foldl (fun acc v => if acc.any (fun w => pyEq v w) then acc else acc ++ [v]) []

/-- One entry of `field_coverage` (updated_pipeline.py lines 130-133). -/
structure CoverageInfo where
  count : Nat
  coverage_pct : ℚ
deriving DecidableEq

/-- `field_coverage` (updated_pipeline.py lines 125-134): for every field of
`all_fields` other than `_id`, the presence count and the percentage
`count / len(sample_docs) * 100`. -/
def fieldCoverage (sample : List Record) : List (String × CoverageInfo) :=
  ((allFields sample).filter (fun f => f ≠ "_id")).map (fun f =>
    let n := (sample.filter (fun d => d.hasKey f)).length
    (f, ⟨n, (n : ℚ) / (sample.length : ℚ) * 100⟩))

/-- `field_types` (updated_pipeline.py lines 137-147): for every field of
`all_fields` (`_id` included — this loop has no `_id` guard), the histogram
of runtime type names over the docs containing the field. -/
def fieldTypes (sample : List Record) : List (String × List (String × Nat)) :=
  (allFields sample).map (fun f =>
    (f, valueCounts ((sample.filter (fun d => d.hasKey f)).map
      (fun d => typeName (d.getVal f)))))

/-- The conditional table for one field (updated_pipeline.py lines
154-170): if the field's value list is non-empty and its FIRST value is not
composite (`field_values and not isinstance(field_values[0], (dict,
list))` — only index 0 is tested), the stringified values are counted and
the top 10 by descending count are kept; otherwise there is no table. -/
def mkDistribution (sample : List Record) (f : String) : Option (List (String × Nat)) :=
  let vs := fieldValues sample f
  match vs.head? with
  | none => none
  | some v0 =>
    if isComposite v0 then none
    else some ((sortByCountDesc (valueCounts (vs.map pyStr))).take 10)

/-- `value_distributions` (updated_pipeline.py lines 151-172): the mapping
collecting `mkDistribution` for every field other than `_id` that receives
a table. -/
def valueDistributions (sample : List Record) : List (String × List (String × Nat)) :=
  ((allFields sample).filter (fun f => f ≠ "_id")).filterMap (fun f =>
    (mkDistribution sample f).map (fun t => (f, t)))

/-- `distinct_counts` (updated_pipeline.py lines 175-180): for every field
other than `_id`, the size of the Python set of the field's non-composite
values (composite values are dropped individually by the generator's
`not isinstance(...)` clause). -/
def distinctCounts (sample : List Record) : List (String × Nat) :=
  ((allFields sample).filter (fun f => f ≠ "_id")).map (fun f =>
    (f, (pyDedup ((fieldValues sample f).filter (fun v => !isComposite v))).length))

/-- The block of statistics computed only under `if sample_docs:`
(updated_pipeline.py lines 117-180). -/
structure FieldAnalysis where
  field_count : Nat
  field_coverage : List (String × CoverageInfo)
  field_types : List (String × List (String × Nat))
  value_distributions : List (String × List (String × Nat))
  distinct_counts : List (String × Nat)
deriving DecidableEq

/-- The `stats` dict returned by `get_detailed_collection_stats`.  The five
sample-derived keys are set only when the sample is non-empty, which is
modelled by the `Option`-valued `analysis` component. -/
structure Stats where
  doc_count : Nat
  size_mb : ℚ
  avg_doc_size_kb : ℚ
  storage_size_mb : ℚ
  index_size_mb : ℚ
  index_count : Nat
  analysis : Option FieldAnalysis
deriving DecidableEq

/-- The response of the collaborator's `collstats` command; any key may be
absent (`coll_stats.get(key, default)` in the source). -/
structure CollStatsResp where
  size : Option Nat
  avgObjSize : Option Nat
  storageSize : Option Nat
  totalIndexSize : Option Nat
  indexSizes : Option (List (String × Nat))
deriving DecidableEq

/-- A query filter: the source passes either `{}` or
`{field: {"$exists": True}}`. -/
inductive QueryFilter where
  | empty : QueryFilter
  | existsField : String → QueryFilter
deriving DecidableEq

/-- The collaborator (database driver handle).  Each operation may raise,
modelled by `Except` carrying the error message. -/
structure Backend where
  countDocuments : QueryFilter → Except String Nat
  collStats : Except String CollStatsResp
  find : Nat → Except String (List Record)
  distinct : String → Except String (List PyValue)

/-- Python `round(q, 2)` (the tie-at-half-cent behaviour of float banker's
rounding differs from `round` at exact midpoints; no theorem below
evaluates `round2` at such a point). -/
def round2 (q : ℚ) : ℚ := ((round (q * 100) : ℤ) : ℚ) / 100

/-- The pure part of `get_detailed_collection_stats`: assembling the
`stats` dict from the three collaborator responses
(updated_pipeline.py lines 102-182). -/
def buildStats (doc_count : Nat) (cs : CollStatsResp) (sample : List Record) : Stats :=
  ⟨doc_count,
   round2 ((cs.size.getD 0 : ℚ) / (1024 * 1024)),
   if 0 < cs.avgObjSize.getD 0 then round2 ((cs.avgObjSize.getD 0 : ℚ) / 1024) else 0,
   round2 ((cs.storageSize.getD 0 : ℚ) / (1024 * 1024)),
   round2 ((cs.totalIndexSize.getD 0 : ℚ) / (1024 * 1024)),
   (cs.indexSizes.getD []).length,
   match sample with
   | [] => none
   | _ :: _ =>
     some ⟨(allFields sample).length,
           fieldCoverage sample,
           fieldTypes sample,
           valueDistributions sample,
           distinctCounts sample⟩⟩

/-- `get_detailed_collection_stats(db, collection_name)`
(updated_pipeline.py lines 97-182): count, collstats and a 100-document
sample are requested in this order from the collaborator (any raised
exception propagates — the function body has no handler), then the stats
dict is assembled in memory. -/
def get_detailed_collection_stats (c : Backend) : Except String Stats := do
  let doc_count ← c.countDocuments QueryFilter.empty
  let cs ← c.collStats
  let sample ← c.find 100
  pure (buildStats doc_count cs sample)

/-- Result of the "Analyze Field" action. -/
structure ExactFieldAnalysis where
  presence_count : Nat
  coverage_pct : ℚ
  distinct_count : Nat
deriving DecidableEq

/-- The exact single-field analysis of the "Analyze Field" tab
(updated_pipeline.py lines 584-597, identically mongo.py lines 293-306):
total and existence-filtered document counts from the collaborator, the
guarded percentage, and the length of the collaborator's server-side
`distinct` result.  The in-memory sample is not consulted. -/
def analyze_field_exact (c : Backend) (f : String) : Except String ExactFieldAnalysis := do
  let doc_count ← c.countDocuments QueryFilter.empty
  let field_count ← c.countDocuments (QueryFilter.existsField f)
  let uniq ← c.distinct f
  pure ⟨field_count,
        if 0 < doc_count then (field_count : ℚ) / (doc_count : ℚ) * 100 else 0,
        uniq.length⟩

/-! ### Basic lemmas about the embedded dictionary and set operations -/

theorem hasKey_iff (d : Record) (f : String) :
    d.hasKey f = true ↔ f ∈ d.keys := by
  simp [Record.hasKey, Record.keys, List.elem_iff]

theorem findEntry_map_of_mem {β : Type} (g : String → β) :
    ∀ (ks : List String) (f : String), f ∈ ks →
      findEntry (ks.map (fun k => (k, g k))) f = some (g f)
  | [], f, h => by cases h
  | k :: rest, f, h => by
    by_cases hk : f = k
    · subst hk; simp [findEntry]
    · have : f ∈ rest := by
        rcases List.mem_cons.mp h with h1 | h1
        · exact absurd h1 hk
        · exact h1
      simp [findEntry, hk, findEntry_map_of_mem g rest f this]

theorem findEntry_map_inv {β : Type} (g : String → β) :
    ∀ (ks : List String) (f : String) (b : β),
      findEntry (ks.map (fun k => (k, g k))) f = some b →
      b = g f ∧ f ∈ ks
  | [], f, b, h => by simp [findEntry] at h
  | k :: rest, f, b, h => by
    by_cases hk : f = k
    · subst hk
      simp [findEntry] at h
      exact ⟨h.symm, List.mem_cons_self _ _⟩
    · simp [findEntry, hk] at h
      rcases findEntry_map_inv g rest f b h with ⟨h1, h2⟩
      exact ⟨h1, List.mem_cons_of_mem _ h2⟩

theorem findEntry_filterMap_of_not_mem {β : Type} (h : String → Option β) :
    ∀ (ks : List String) (f : String), f ∉ ks →
      findEntry (ks.filterMap (fun k => (h k).map (fun t => (k, t)))) f = none
  | [], _, _ => rfl
  | k :: rest, f, hf => by
    have hk : f ≠ k := fun he => hf (he ▸ List.mem_cons_self _ _)
    have hrest : f ∉ rest := fun he => hf (List.mem_cons_of_mem _ he)
    cases hh : h k with
    | none => simpa [List.filterMap_cons, hh] using
        findEntry_filterMap_of_not_mem h rest f hrest
    | some t =>
      simpa [List.filterMap_cons, hh, findEntry, hk] using
        findEntry_filterMap_of_not_mem h rest f hrest

theorem findEntry_filterMap_of_mem {β : Type} (h : String → Option β) :
    ∀ (ks : List String) (f : String), f ∈ ks → ks.Nodup →
      findEntry (ks.filterMap (fun k => (h k).map (fun t => (k, t)))) f = h f
  | [], f, hf, _ => by cases hf
  | k :: rest, f, hf, hnd => by
    have hnd2 := List.nodup_cons.mp hnd
    by_cases hk : f = k
    · subst hk
      cases hh : h f with
      | none =>
        simpa [List.filterMap_cons, hh] using
          findEntry_filterMap_of_not_mem h rest f hnd2.1
      | some t => simp [List.filterMap_cons, hh, findEntry]
    · have hrest : f ∈ rest := by
        rcases List.mem_cons.mp hf with h1 | h1
        · exact absurd h1 hk
        · exact h1
      cases hh : h k with
      | none => simpa [List.filterMap_cons, hh] using
          findEntry_filterMap_of_mem h rest f hrest hnd2.2
      | some t =>
        simpa [List.filterMap_cons, hh, findEntry, hk] using
          findEntry_filterMap_of_mem h rest f hrest hnd2.2

theorem pySet_foldl_mem (x : String) :
    ∀ (l acc : List String),
      (x ∈ l.foldl (fun acc y => if y ∈ acc then acc else acc ++ [y]) acc ↔
        x ∈ acc ∨ x ∈ l)
  | [], acc => by simp
  | y :: l, acc => by
    have step : x ∈ (if y ∈ acc then acc else acc ++ [y]) ↔ x ∈ acc ∨ x = y := by
      by_cases hy : y ∈ acc
      · simp only [if_pos hy]
        constructor
        · exact fun h => Or.inl h
        · rintro (h | rfl)
          · exact h
          · exact hy
      · simp [if_neg hy, List.mem_append]
    rw [List.foldl_cons, pySet_foldl_mem x l _, step]
    simp [List.mem_cons]
    tauto

theorem pySet_foldl_nodup :
    ∀ (l acc : List String), acc.Nodup →
      (l.foldl (fun acc y => if y ∈ acc then acc else acc ++ [y]) acc).Nodup
  | [], acc, h => h
  | y :: l, acc, h => by
    rw [List.foldl_cons]
    apply pySet_foldl_nodup l
    by_cases hy : y ∈ acc
    · simpa [if_pos hy] using h
    · rw [if_neg hy]
      simpa [List.nodup_append] using ⟨h, hy⟩

theorem pySet_mem (x : String) (l : List String) : x ∈ pySet l ↔ x ∈ l := by
  rw [pySet, pySet_foldl_mem x l []]
  simp

theorem pySet_nodup (l : List String) : (pySet l).Nodup :=
  pySet_foldl_nodup l [] List.nodup_nil

theorem nodup_length_eq_dedup_length (u l : List String)
    (hnd : u.Nodup) (hmem : ∀ x, x ∈ u ↔ x ∈ l) :
    u.length = l.dedup.length := by
  have h1 : u.toFinset = l.toFinset := by
    apply Finset.ext
    intro a
    simp [List.mem_toFinset, hmem]
  calc u.length = u.toFinset.card := (List.toFinset_card_of_nodup hnd).symm
    _ = l.toFinset.card := by rw [h1]
    _ = l.dedup.length := List.card_toFinset l

theorem pySet_length (l : List String) : (pySet l).length = l.dedup.length :=
  nodup_length_eq_dedup_length (pySet l) l (pySet_nodup l) (fun x => pySet_mem x l)

theorem allFields_mem (sample : List Record) (f : String) :
    f ∈ allFields sample ↔ ∃ d ∈ sample, f ∈ d.keys := by
  rw [allFields, pySet_mem]
  simp [List.mem_flatMap]

theorem fieldValues_ne_nil (sample : List Record) (f : String)
    (h : f ∈ allFields sample) : fieldValues sample f ≠ [] := by
  rcases (allFields_mem sample f).mp h with ⟨d, hd, hf⟩
  have hk : d.hasKey f = true := (hasKey_iff d f).mpr hf
  have : d ∈ sample.filter (fun d => d.hasKey f) := List.mem_filter.mpr ⟨hd, hk⟩
  intro hnil
  rw [fieldValues, List.map_eq_nil_iff] at hnil
  rw [hnil] at this
  cases this

/-! ### The counting dictionary: keys, counts, insertion order -/

/-- The count stored for `k` (0 if no entry), reading the first match. -/
def getCount (acc : List (String × Nat)) (k : String) : Nat :=
  match acc with
  | [] => 0
  | (k2, n) :: rest => if k = k2 then n else getCount rest k

theorem getCount_bump_self (v : String) :
    ∀ acc, getCount (bump v acc) v = getCount acc v + 1
  | [] => by simp [bump, getCount]
  | (k2, n) :: rest => by
    by_cases hv : v = k2
    · subst hv; simp [bump, getCount]
    · simp [bump, getCount, hv, Ne.symm hv, getCount_bump_self v rest]

theorem getCount_bump_other (v k : String) (hk : k ≠ v) :
    ∀ acc, getCount (bump v acc) k = getCount acc k
  | [] => by simp [bump, getCount, hk]
  | (k2, n) :: rest => by
    by_cases hv : v = k2
    · subst hv; simp [bump, getCount, hk]
    · simp only [bump, if_neg hv, getCount]
      by_cases hk2 : k = k2
      · simp [hk2]
      · simp [hk2, getCount_bump_other v k hk rest]

theorem keys_bump (v : String) :
    ∀ acc, (bump v acc).map Prod.fst =
      (if v ∈ acc.map Prod.fst then acc.map Prod.fst else acc.map Prod.fst ++ [v])
  | [] => by simp [bump]
  | (k2, n) :: rest => by
    by_cases hv : v = k2
    · subst hv; simp [bump]
    · simp only [bump, if_neg hv, List.map_cons, keys_bump v rest]
      by_cases hm : v ∈ rest.map Prod.fst
      · simp [hm, hv]
      · simp [hm, hv]

theorem mem_of_getCount :
    ∀ (acc : List (String × Nat)), (acc.map Prod.fst).Nodup →
      ∀ p : String × Nat, p ∈ acc → p.2 = getCount acc p.1
  | [], _, p, hp => by cases hp
  | (k2, n) :: rest, hnd, p, hp => by
    rw [List.map_cons] at hnd
    have hnd2 := List.nodup_cons.mp hnd
    rcases List.mem_cons.mp hp with rfl | hp2
    · simp [getCount]
    · have hne : p.1 ≠ k2 := by
        intro he
        have hmm : p.1 ∈ rest.map Prod.fst := List.mem_map_of_mem Prod.fst hp2
        exact hnd2.1 (he ▸ hmm)
      simp only [getCount, if_neg hne]
      exact mem_of_getCount rest hnd2.2 p hp2

theorem sum_bump (v : String) :
    ∀ acc, ((bump v acc).map Prod.snd).sum = ((acc.map Prod.snd).sum) + 1
  | [] => by simp [bump]
  | (k2, n) :: rest => by
    by_cases hv : v = k2
    · subst hv; simp [bump, Nat.add_assoc, Nat.add_comm 1]
    · simp only [bump, if_neg hv, List.map_cons, List.sum_cons, sum_bump v rest]
      omega

/-- The invariant carried through the counting fold: after processing
`seen`, the dictionary has one entry per distinct element of `seen`, in
first-occurrence order, holding that element's occurrence count. -/
def CountInv (seen : List String) (acc : List (String × Nat)) : Prop :=
  (∀ k, k ∈ acc.map Prod.fst ↔ k ∈ seen) ∧
  (acc.map Prod.fst).Nodup ∧
  (acc.map Prod.fst).Pairwise (fun a b => firstIdx seen a < firstIdx seen b) ∧
  (∀ k, getCount acc k = seen.count k)

theorem firstIdx_append_of_mem (k : String) :
    ∀ (s t : List String), k ∈ s → firstIdx (s ++ t) k = firstIdx s k
  | [], _, h => by cases h
  | x :: xs, t, h => by
    by_cases hx : x = k
    · simp [firstIdx, hx]
    · have : k ∈ xs := by
        rcases List.mem_cons.mp h with h1 | h1
        · exact absurd h1.symm hx
        · exact h1
      simp [firstIdx, hx, firstIdx_append_of_mem k xs t this]

theorem firstIdx_lt_length (k : String) :
    ∀ (s : List String), k ∈ s → firstIdx s k < s.length
  | [], h => by cases h
  | x :: xs, h => by
    by_cases hx : x = k
    · simp [firstIdx, hx]
    · have : k ∈ xs := by
        rcases List.mem_cons.mp h with h1 | h1
        · exact absurd h1.symm hx
        · exact h1
      simpa [firstIdx, hx] using firstIdx_lt_length k xs this

theorem firstIdx_append_self (v : String) :
    ∀ (s : List String), v ∉ s → firstIdx (s ++ [v]) v = s.length
  | [], _ => by simp [firstIdx]
  | x :: xs, h => by
    have hx : x ≠ v := fun he => h (he ▸ List.mem_cons_self _ _)
    have : v ∉ xs := fun he => h (List.mem_cons_of_mem _ he)
    simp [firstIdx, hx, firstIdx_append_self v xs this]

theorem countInv_step (seen : List String) (acc : List (String × Nat))
    (h : CountInv seen acc) (v : String) :
    CountInv (seen ++ [v]) (bump v acc) := by
  obtain ⟨hmem, hnd, hord, hcnt⟩ := h
  have hkeys := keys_bump v acc
  by_cases hv : v ∈ acc.map Prod.fst
  · have hvseen : v ∈ seen := (hmem v).mp hv
    rw [if_pos hv] at hkeys
    refine ⟨?_, ?_, ?_, ?_⟩
    · intro k
      rw [hkeys, hmem k]
      constructor
      · exact fun h2 => List.mem_append_left _ h2
      · intro h2
        rcases List.mem_append.mp h2 with h3 | h3
        · exact h3
        · rcases List.mem_singleton.mp h3 with rfl
          exact hvseen
    · rw [hkeys]; exact hnd
    · rw [hkeys]
      refine hord.imp_of_mem ?_
      intro a b ha hb hab
      have ha2 : a ∈ seen := (hmem a).mp ha
      have hb2 : b ∈ seen := (hmem b).mp hb
      rw [firstIdx_append_of_mem a seen [v] ha2, firstIdx_append_of_mem b seen [v] hb2]
      exact hab
    · intro k
      by_cases hk : k = v
      · subst hk
        rw [getCount_bump_self, hcnt, List.count_append]
        simp
      · rw [getCount_bump_other v k hk, hcnt, List.count_append]
        simp [List.count_singleton, hk]
  · have hvseen : v ∉ seen := fun h2 => hv ((hmem v).mpr h2)
    rw [if_neg hv] at hkeys
    refine ⟨?_, ?_, ?_, ?_⟩
    · intro k
      rw [hkeys]
      simp [List.mem_append, hmem k]
    · rw [hkeys]
      refine List.Nodup.append hnd (List.nodup_singleton v) ?_
      intro a ha hb
      rcases List.mem_singleton.mp hb with rfl
      exact hv ha
    · rw [hkeys]
      rw [List.pairwise_append]
      refine ⟨?_, by simp, ?_⟩
      · refine hord.imp_of_mem ?_
        intro a b ha hb hab
        have ha2 : a ∈ seen := (hmem a).mp ha
        have hb2 : b ∈ seen := (hmem b).mp hb
        rw [firstIdx_append_of_mem a seen [v] ha2, firstIdx_append_of_mem b seen [v] hb2]
        exact hab
      · intro a ha b hb
        rcases List.mem_singleton.mp hb with rfl
        have ha2 : a ∈ seen := (hmem a).mp ha
        rw [firstIdx_append_of_mem a seen [b] ha2, firstIdx_append_self b seen hvseen]
        exact firstIdx_lt_length a seen ha2
    · intro k
      by_cases hk : k = v
      · subst hk
        rw [getCount_bump_self, hcnt, List.count_append]
        simp
      · rw [getCount_bump_other v k hk, hcnt, List.count_append]
        simp [List.count_singleton, hk]

theorem countInv_foldl :
    ∀ (rest seen : List String) (acc : List (String × Nat)),
      CountInv seen acc →
      CountInv (seen ++ rest) (rest.foldl (fun a v => bump v a) acc)
  | [], seen, acc, h => by simpa using h
  | v :: rest, seen, acc, h => by
    have h2 := countInv_foldl rest (seen ++ [v]) (bump v acc) (countInv_step seen acc h v)
    simpa using h2

theorem valueCounts_inv (l : List String) : CountInv l (valueCounts l) := by
  have h0 : CountInv [] ([] : List (String × Nat)) := by
    refine ⟨by simp, by simp, by simp, by simp [getCount]⟩
  simpa using countInv_foldl l [] [] h0

theorem valueCounts_count (l : List String) (p : String × Nat)
    (hp : p ∈ valueCounts l) : p.2 = l.count p.1 := by
  obtain ⟨_, hnd, _, hcnt⟩ := valueCounts_inv l
  rw [mem_of_getCount (valueCounts l) hnd p hp, hcnt]

theorem valueCounts_length (l : List String) :
    (valueCounts l).length = l.dedup.length := by
  obtain ⟨hmem, hnd, _, _⟩ := valueCounts_inv l
  have := nodup_length_eq_dedup_length ((valueCounts l).map Prod.fst) l hnd hmem
  simpa using this

theorem sum_foldl_bump :
    ∀ (l : List String) (acc : List (String × Nat)),
      (((l.foldl (fun a v => bump v a) acc).map Prod.snd).sum) =
        ((acc.map Prod.snd).sum) + l.length
  | [], acc => by simp
  | v :: l, acc => by
    rw [List.foldl_cons, sum_foldl_bump l (bump v acc), sum_bump v acc]
    simp only [List.length_cons]
    omega

theorem valueCounts_sum (l : List String) :
    ((valueCounts l).map Prod.snd).sum = l.length := by
  simpa using sum_foldl_bump l []

/-! ### The stable descending sort: sortedness and first-encounter ties -/

/-- The strict order realised by a stable descending-by-count sort of a
list whose keys are indexed by `idx` in strictly increasing order: higher
count first, ties by lower index (earlier first encounter) first. -/
def StableDescOrder (idx : String → Nat) (a b : String × Nat) : Prop :=
  b.2 < a.2 ∨ (a.2 = b.2 ∧ idx a.1 < idx b.1)

theorem stableDescOrder_trans (idx : String → Nat) (a b c : String × Nat)
    (h1 : StableDescOrder idx a b) (h2 : StableDescOrder idx b c) :
    StableDescOrder idx a c := by
  rcases h1 with h1 | ⟨h1a, h1b⟩
  · rcases h2 with h2 | ⟨h2a, h2b⟩
    · exact Or.inl (lt_trans h2 h1)
    · exact Or.inl (h2a ▸ h1)
  · rcases h2 with h2 | ⟨h2a, h2b⟩
    · exact Or.inl (h1a ▸ h2)
    · exact Or.inr ⟨h1a.trans h2a, lt_trans h1b h2b⟩

theorem pairwise_orderedInsert (idx : String → Nat) (x : String × Nat) :
    ∀ m : List (String × Nat),
      m.Pairwise (StableDescOrder idx) →
      (∀ y ∈ m, idx x.1 < idx y.1) →
      (List.orderedInsert (fun a b => b.2 ≤ a.2) x m).Pairwise (StableDescOrder idx)
  | [], _, _ => List.pairwise_singleton _ x
  | b :: l, hp, hidx => by
    rw [List.pairwise_cons] at hp
    by_cases hr : b.2 ≤ x.2
    · rw [List.orderedInsert, if_pos hr]
      have hxb : StableDescOrder idx x b := by
        rcases lt_or_eq_of_le hr with h | h
        · exact Or.inl h
        · exact Or.inr ⟨h.symm, hidx b (List.mem_cons_self _ _)⟩
      rw [List.pairwise_cons]
      refine ⟨?_, List.pairwise_cons.mpr hp⟩
      intro z hz
      rcases List.mem_cons.mp hz with rfl | hz2
      · exact hxb
      · exact stableDescOrder_trans idx x b z hxb (hp.1 z hz2)
    · rw [List.orderedInsert, if_neg hr]
      rw [List.pairwise_cons]
      constructor
      · intro z hz
        rcases (List.mem_orderedInsert _).mp hz with rfl | hz2
        · exact Or.inl (Nat.lt_of_not_le hr)
        · exact hp.1 z hz2
      · exact pairwise_orderedInsert idx x l hp.2
          (fun y hy => hidx y (List.mem_cons_of_mem _ hy))

theorem pairwise_insertionSort (idx : String → Nat) :
    ∀ l : List (String × Nat),
      l.Pairwise (fun a b => idx a.1 < idx b.1) →
      (List.insertionSort (fun a b => b.2 ≤ a.2) l).Pairwise (StableDescOrder idx)
  | [], _ => List.Pairwise.nil
  | a :: l, hp => by
    rw [List.pairwise_cons] at hp
    rw [List.insertionSort]
    refine pairwise_orderedInsert idx a _ (pairwise_insertionSort idx l hp.2) ?_
    intro y hy
    exact hp.1 y ((List.perm_insertionSort _ l).mem_iff.mp hy)

/-! ### Python sets of values -/

theorem pyDedup_foldl_ne_nil :
    ∀ (l acc : List PyValue), acc ≠ [] →
      l.foldl (fun acc v => if acc.any (fun w => pyEq v w) then acc
        else acc ++ [v]) acc ≠ []
  | [], acc, h => h
  | v :: l, acc, h => by
    rw [List.foldl_cons]
    apply pyDedup_foldl_ne_nil l
    by_cases hv : acc.any (fun w => pyEq v w)
    · simpa [hv] using h
    · simp only [hv]
      simp [h]

theorem pyDedup_eq_nil_iff (l : List PyValue) : pyDedup l = [] ↔ l = [] := by
  constructor
  · intro h
    cases l with
    | nil => rfl
    | cons v vs =>
      exfalso
      rw [pyDedup, List.foldl_cons] at h
      have : ([] : List PyValue).any (fun w => pyEq v w) = false := rfl
      rw [this] at h
      exact pyDedup_foldl_ne_nil vs [v] (by simp) (by simpa using h)
  · intro h; rw [h]; rfl

/-! ### Keys of the per-field report mappings -/

theorem map_fst_tagged {β : Type} (g : String → β) :
    ∀ ks : List String, (ks.map (fun k => (k, g k))).map Prod.fst = ks
  | [] => rfl
  | k :: rest => by
    simp [map_fst_tagged g rest]

theorem mem_keys_filterMap {β : Type} (h : String → Option β)
    (ks : List String) (x : String)
    (hx : x ∈ (ks.filterMap (fun k => (h k).map (fun t => (k, t)))).map Prod.fst) :
    x ∈ ks := by
  rcases List.mem_map.mp hx with ⟨p, hp, hfst⟩
  rcases List.mem_filterMap.mp hp with ⟨k, hk, hsome⟩
  cases hh : h k with
  | none => rw [hh] at hsome; cases hsome
  | some t =>
    rw [hh] at hsome
    have hsome2 : some (k, t) = some p := hsome
    cases hsome2
    rw [← hfst]
    exact hk

/-! ### Concrete samples and backends used by counterexamples/witnesses -/

/-- A one-record sample containing `_id` and one ordinary field. -/
def sampleIdA : List Record := [[("_id", vint 1), ("a", vint 2)]]

/-- The three-record scenario of the spec: key sets
`{_id,a,b}`, `{_id,a}`, `{_id,a,b,c}`. -/
def scenarioSample : List Record :=
  [[("_id", vint 1), ("a", vint 1), ("b", vstr "x")],
   [("_id", vint 2), ("a", vint 2)],
   [("_id", vint 3), ("a", vint 2), ("b", vstr "y"), ("c", vnone)]]

/-- A sample where field `f` is a string in the first record and a nested
mapping in the second. -/
def sampleMixedComposite : List Record :=
  [[("_id", vint 1), ("f", vstr "x")], [("_id", vint 2), ("f", vdict [])]]

/-- A sample where field `f` is the integer `1` in one record and the
string `"1"` in the other. -/
def sampleIntStr : List Record :=
  [[("_id", vint 1), ("f", vint 1)], [("_id", vint 2), ("f", vstr "1")]]

/-- A collstats response with every key absent. -/
def noStats : CollStatsResp := ⟨none, none, none, none, none⟩

/-- A backend for an empty collection: zero documents, empty sample. -/
def emptyBackend : Backend :=
  ⟨fun _ => Except.ok 0, Except.ok noStats, fun _ => Except.ok [], fun _ => Except.ok []⟩

/-- A backend whose count operation raises. -/
def failCountBackend : Backend :=
  ⟨fun _ => Except.error "count failed", Except.ok noStats,
   fun _ => Except.ok [], fun _ => Except.ok []⟩

/-- A backend whose collstats command raises. -/
def failStatsBackend : Backend :=
  ⟨fun _ => Except.ok 0, Except.error "collstats failed",
   fun _ => Except.ok [], fun _ => Except.ok []⟩

/-- A backend whose find (sample fetch) raises. -/
def failFindBackend : Backend :=
  ⟨fun _ => Except.ok 0, Except.ok noStats,
   fun _ => Except.error "find failed", fun _ => Except.ok []⟩

/-! ### C2 -/

/-- C2, counterexample: the claim says `_id` never appears as a key in any
part of the per-field report; but in the type-histogram part
(`field_types`, whose loop has no `_id` guard) `_id` does appear for this
one-record sample. -/
theorem id_in_type_histogram_cex :
    "_id" ∈ (fieldTypes sampleIdA).map Prod.fst := by decide

/-- C2 (amended): `_id` never appears as a key in the coverage,
value-frequency or distinct-count mappings, but it does appear in the type
histogram mapping whenever some sampled document contains `_id`. -/
theorem id_exclusion_spec (sample : List Record) :
    "_id" ∉ (fieldCoverage sample).map Prod.fst ∧
    "_id" ∉ (valueDistributions sample).map Prod.fst ∧
    "_id" ∉ (distinctCounts sample).map Prod.fst ∧
    ("_id" ∈ sample.flatMap Record.keys → "_id" ∈ (fieldTypes sample).map Prod.fst) := by
  have hfilter : "_id" ∉ (allFields sample).filter (fun f => f ≠ "_id") := by
    intro h
    have h2 := (List.mem_filter.mp h).2
    exact (of_decide_eq_true h2) rfl
  refine ⟨?_, ?_, ?_, ?_⟩
  · rw [fieldCoverage, map_fst_tagged]
    exact hfilter
  · intro h
    exact hfilter (mem_keys_filterMap _ _ _ h)
  · rw [distinctCounts, map_fst_tagged]
    exact hfilter
  · intro h
    rw [fieldTypes, map_fst_tagged]
    exact (pySet_mem _ _).mpr h

/-- C2, witness: the amended statement evaluated on the one-record
sample. -/
theorem id_exclusion_witness :
    "_id" ∉ (fieldCoverage sampleIdA).map Prod.fst ∧
    "_id" ∈ (fieldTypes sampleIdA).map Prod.fst :=
  ⟨(id_exclusion_spec sampleIdA).1,
   (id_exclusion_spec sampleIdA).2.2.2 (by decide)⟩

/-! ### C3 -/

/-- C3, counterexample: on the three-record scenario the report's field
count is 4 (`_id` is counted by `len(all_fields)`), not 3 as the claim
requires. -/
theorem field_count_scenario_cex :
    ((buildStats 3 noStats scenarioSample).analysis.map FieldAnalysis.field_count)
      = some 4 ∧ (4 : Nat) ≠ 3 := by
  constructor
  · decide
  · decide

/-- C3 (amended): for a non-empty sample, the report's field count equals
the number of distinct field names seen in the sample INCLUDING `_id`
(the source counts `len(all_fields)` without excluding `_id`); on the
three-record scenario this gives 4, not 3. -/
theorem field_count_spec (doc_count : Nat) (cs : CollStatsResp)
    (sample : List Record) (hne : sample ≠ []) :
    ∃ fa, (buildStats doc_count cs sample).analysis = some fa ∧
      fa.field_count = (allFields sample).length ∧
      fa.field_count = (sample.flatMap Record.keys).dedup.length := by
  obtain ⟨d, rest, rfl⟩ : ∃ d rest, sample = d :: rest := by
    cases sample with
    | nil => exact absurd rfl hne
    | cons d rest => exact ⟨d, rest, rfl⟩
  refine ⟨_, rfl, rfl, ?_⟩
  exact pySet_length _

/-- C3, witness: the amended statement on the three-record scenario. -/
theorem field_count_witness :
    ∃ fa, (buildStats 3 noStats scenarioSample).analysis = some fa ∧
      fa.field_count = (allFields scenarioSample).length ∧
      fa.field_count = (scenarioSample.flatMap Record.keys).dedup.length :=
  field_count_spec 3 noStats scenarioSample (List.cons_ne_nil _ _)

/-! ### C4 -/

/-- C4, counterexample: on an empty collection the function returns
without error a report with document count 0, but the claim's "field count
0 and empty field-report mapping" is false: the analysis block is absent
entirely (no field-count key exists at all). -/
theorem empty_collection_report_cex :
    (∃ s, get_detailed_collection_stats emptyBackend = Except.ok s ∧
      s.doc_count = 0 ∧ s.analysis = none) ∧
    ¬ (∃ s fa, get_detailed_collection_stats emptyBackend = Except.ok s ∧
      s.analysis = some fa ∧ fa.field_count = 0 ∧ fa.field_coverage = []) := by
  have hrun : get_detailed_collection_stats emptyBackend =
      Except.ok (buildStats 0 noStats []) := rfl
  constructor
  · exact ⟨buildStats 0 noStats [], hrun, rfl, rfl⟩
  · rintro ⟨s, fa, hs, hfa, -, -⟩
    rw [hrun] at hs
    cases hs
    cases hfa

/-- C4 (amended): when the sample fetch returns no records (and the count
and collstats calls succeed), the function returns without error a report
carrying the reported document count and size metrics, in which the field
count and all per-field mappings are omitted entirely (the analysis block
is absent), rather than present as zero/empty. -/
theorem empty_sample_report (c : Backend) (n : Nat) (cs : CollStatsResp)
    (hc : c.countDocuments QueryFilter.empty = Except.ok n)
    (hs : c.collStats = Except.ok cs)
    (hf : c.find 100 = Except.ok []) :
    get_detailed_collection_stats c = Except.ok (buildStats n cs []) ∧
    (buildStats n cs []).doc_count = n ∧
    (buildStats n cs []).analysis = none := by
  refine ⟨?_, rfl, rfl⟩
  rw [get_detailed_collection_stats]
  rw [hc, hs, hf]
  rfl

/-! ### C10 -/

/-- C10: distinct-value counting compares raw values while the frequency
table counts canonical string forms, so on the sample whose `f` values are
the integer `1` and the string `"1"` the distinct count (2) strictly
exceeds the number of frequency-table entries (1). -/
theorem distinct_exceeds_table_entries :
    findEntry (distinctCounts sampleIntStr) "f" = some 2 ∧
    findEntry (valueDistributions sampleIntStr) "f" = some [("1", 2)] ∧
    ([(("1" : String), (2 : Nat))].length) < 2 := by
  refine ⟨by decide, by decide, by decide⟩

/-- C4, witness: the amended statement on the empty backend. -/
theorem empty_sample_report_witness :
    get_detailed_collection_stats emptyBackend = Except.ok (buildStats 0 noStats []) ∧
    (buildStats 0 noStats []).doc_count = 0 ∧
    (buildStats 0 noStats []).analysis = none :=
  empty_sample_report emptyBackend 0 noStats rfl rfl rfl

/-! ### C5 -/

/-- C5: an error raised by the collaborator during the document-count,
collstats or sample-fetch call makes the whole computation return exactly
that error (the original message, no partial report, no fallback
value). -/
theorem backend_error_propagation (c : Backend) (e : String) :
    (c.countDocuments QueryFilter.empty = Except.error e →
      get_detailed_collection_stats c = Except.error e) ∧
    (∀ n, c.countDocuments QueryFilter.empty = Except.ok n →
      c.collStats = Except.error e →
      get_detailed_collection_stats c = Except.error e) ∧
    (∀ n cs, c.countDocuments QueryFilter.empty = Except.ok n →
      c.collStats = Except.ok cs →
      c.find 100 = Except.error e →
      get_detailed_collection_stats c = Except.error e) := by
  refine ⟨?_, ?_, ?_⟩
  · intro h
    rw [get_detailed_collection_stats, h]
    rfl
  · intro n h1 h2
    rw [get_detailed_collection_stats, h1, h2]
    rfl
  · intro n cs h1 h2 h3
    rw [get_detailed_collection_stats, h1, h2, h3]
    rfl

/-- C5, witness: each of the three collaborator calls failing on a
concrete backend aborts the computation with the original message. -/
theorem backend_error_propagation_witness :
    get_detailed_collection_stats failCountBackend = Except.error "count failed" ∧
    get_detailed_collection_stats failStatsBackend = Except.error "collstats failed" ∧
    get_detailed_collection_stats failFindBackend = Except.error "find failed" :=
  ⟨(backend_error_propagation failCountBackend "count failed").1 rfl,
   (backend_error_propagation failStatsBackend "collstats failed").2.1 0 rfl rfl,
   (backend_error_propagation failFindBackend "find failed").2.2 0 noStats rfl rfl rfl⟩

/-! ### C6 -/

/-- C6: every coverage entry stores `presence_count / len(sample) * 100`,
so it lies between 0 and 100 and the presence count never exceeds the
sample size; on an empty sample the coverage mapping has no entries at all
(so trivially no field has a nonzero coverage and no division is ever
performed). -/
theorem coverage_bounds (sample : List Record) :
    (∀ f ci, findEntry (fieldCoverage sample) f = some ci →
      ci.coverage_pct = (ci.count : ℚ) / (sample.length : ℚ) * 100 ∧
      ci.count ≤ sample.length ∧
      0 ≤ ci.coverage_pct ∧ ci.coverage_pct ≤ 100) ∧
    (sample = [] → ∀ f, findEntry (fieldCoverage sample) f = none) := by
  constructor
  · intro f ci h
    rcases findEntry_map_inv _ _ _ _ h with ⟨hci, hmem⟩
    have hfld : f ∈ allFields sample := (List.mem_filter.mp hmem).1
    rcases (allFields_mem sample f).mp hfld with ⟨d, hd, -⟩
    have hlen : 0 < sample.length := List.length_pos.mpr (List.ne_nil_of_mem hd)
    have hcnt : (sample.filter (fun d => d.hasKey f)).length ≤ sample.length :=
      List.length_filter_le _ _
    subst hci
    refine ⟨rfl, hcnt, ?_, ?_⟩
    · positivity
    · have hq : ((sample.filter (fun d => d.hasKey f)).length : ℚ) /
          (sample.length : ℚ) ≤ 1 := by
        rw [div_le_one (by exact_mod_cast hlen)]
        exact_mod_cast hcnt
      calc ((sample.filter (fun d => d.hasKey f)).length : ℚ) /
            (sample.length : ℚ) * 100 ≤ 1 * 100 :=
              mul_le_mul_of_nonneg_right hq (by norm_num)
        _ = 100 := one_mul 100
  · intro h f
    subst h
    rfl

/-- The coverage entry computed for one field, as stored by
`fieldCoverage`. -/
def covOf (sample : List Record) (f : String) : CoverageInfo :=
  ⟨(sample.filter (fun d => d.hasKey f)).length,
   ((sample.filter (fun d => d.hasKey f)).length : ℚ) / (sample.length : ℚ) * 100⟩

/-- C6, witness: field `b` of the three-record scenario is present in 2 of
3 records; its stored entry satisfies all four conclusions. -/
theorem coverage_bounds_witness :
    (covOf scenarioSample "b").coverage_pct =
      ((covOf scenarioSample "b").count : ℚ) / (scenarioSample.length : ℚ) * 100 ∧
    (covOf scenarioSample "b").count ≤ scenarioSample.length ∧
    0 ≤ (covOf scenarioSample "b").coverage_pct ∧
    (covOf scenarioSample "b").coverage_pct ≤ 100 :=
  (coverage_bounds scenarioSample).1 "b" (covOf scenarioSample "b") rfl

/-! ### C1 -/

/-- C1, counterexample: in the sample where field `f` is the string `"x"`
in the first record and a nested mapping in the second, the claim requires
no frequency-table entry and a distinct count of 0; but the code tests only
the FIRST value for compositeness (so the table exists) and drops composite
values from the distinct set individually (so the distinct count is 1). -/
theorem composite_gate_cex :
    findEntry (valueDistributions sampleMixedComposite) "f" ≠ none ∧
    findEntry (distinctCounts sampleMixedComposite) "f" = some 1 := by
  refine ⟨by decide, by decide⟩

/-- C1 (amended): a field receives a value-frequency table iff its FIRST
sampled value is non-composite (later composite values neither disqualify
the field nor escape stringified counting), and the distinct-value count
drops composite values individually, so it is 0 iff every sampled value of
the field is composite — not whenever at least one is. -/
theorem composite_gate_spec (sample : List Record) (f : String)
    (hf : f ≠ "_id") (hmem : f ∈ allFields sample) :
    (findEntry (valueDistributions sample) f ≠ none ↔
      ∃ v rest, fieldValues sample f = v :: rest ∧ isComposite v = false) ∧
    (∀ n, findEntry (distinctCounts sample) f = some n →
      (n = 0 ↔ ∀ v ∈ fieldValues sample f, isComposite v = true)) := by
  have hks : f ∈ (allFields sample).filter (fun f => f ≠ "_id") :=
    List.mem_filter.mpr ⟨hmem, decide_eq_true hf⟩
  have hnd : ((allFields sample).filter (fun f => f ≠ "_id")).Nodup :=
    (pySet_nodup _).filter _
  obtain ⟨v, rest, hvr⟩ : ∃ v rest, fieldValues sample f = v :: rest := by
    cases hv : fieldValues sample f with
    | nil => exact absurd hv (fieldValues_ne_nil sample f hmem)
    | cons v rest => exact ⟨v, rest, rfl⟩
  constructor
  · rw [valueDistributions, findEntry_filterMap_of_mem _ _ _ hks hnd]
    rw [mkDistribution]
    simp only [hvr, List.head?_cons]
    by_cases hcomp : isComposite v = true
    · rw [if_pos hcomp]
      simp only [ne_eq, not_true_eq_false, false_iff]
      rintro ⟨v2, rest2, heq, hscalar⟩
      cases heq
      rw [hcomp] at hscalar
      cases hscalar
    · have hfalse : isComposite v = false := Bool.eq_false_iff.mpr hcomp
      rw [if_neg hcomp]
      simp only [ne_eq, reduceCtorEq, not_false_eq_true, true_iff]
      exact ⟨v, rest, rfl, hfalse⟩
  · intro n hn
    rw [distinctCounts, findEntry_map_of_mem _ _ _ hks] at hn
    have hn2 := Option.some.inj hn
    subst hn2
    rw [List.length_eq_zero, pyDedup_eq_nil_iff, List.filter_eq_nil_iff]
    constructor
    · intro h v hv
      have := h v hv
      simpa using this
    · intro h v hv
      simpa using h v hv

/-- C1, witness: the amended statement evaluated on the mixed sample. -/
theorem composite_gate_witness :
    (findEntry (valueDistributions sampleMixedComposite) "f" ≠ none ↔
      ∃ v rest, fieldValues sampleMixedComposite "f" = v :: rest ∧
        isComposite v = false) ∧
    (∀ n, findEntry (distinctCounts sampleMixedComposite) "f" = some n →
      (n = 0 ↔ ∀ v ∈ fieldValues sampleMixedComposite "f",
        isComposite v = true)) :=
  composite_gate_spec sampleMixedComposite "f" (by decide) (by decide)

/-! ### C8 -/

/-- C8: the exact single-field analysis returns the collaborator's
existence-filtered count as presence, the guarded percentage over the
collaborator's total count (0 when the collection has 0 documents), and
the length of the collaborator's server-side distinct result; its output
depends only on those three collaborator responses, not on any in-memory
sample. -/
theorem analyze_field_exact_spec (c : Backend) (f : String) (n m : Nat)
    (vs : List PyValue)
    (h1 : c.countDocuments QueryFilter.empty = Except.ok n)
    (h2 : c.countDocuments (QueryFilter.existsField f) = Except.ok m)
    (h3 : c.distinct f = Except.ok vs) :
    analyze_field_exact c f = Except.ok
      ⟨m, if 0 < n then (m : ℚ) / (n : ℚ) * 100 else 0, vs.length⟩ ∧
    ∀ c2 : Backend,
      c2.countDocuments QueryFilter.empty = Except.ok n →
      c2.countDocuments (QueryFilter.existsField f) = Except.ok m →
      c2.distinct f = Except.ok vs →
      analyze_field_exact c2 f = analyze_field_exact c f := by
  have hrun : analyze_field_exact c f = Except.ok
      ⟨m, if 0 < n then (m : ℚ) / (n : ℚ) * 100 else 0, vs.length⟩ := by
    rw [analyze_field_exact, h1, h2, h3]
    rfl
  refine ⟨hrun, ?_⟩
  intro c2 g1 g2 g3
  rw [hrun, analyze_field_exact, g1, g2, g3]
  rfl

/-- A backend with 4 documents, 3 of which carry the analysed field, and a
two-element distinct result. -/
def exactBackend : Backend :=
  ⟨fun flt => match flt with
    | QueryFilter.empty => Except.ok 4
    | QueryFilter.existsField _ => Except.ok 3,
   Except.ok noStats, fun _ => Except.ok [], fun _ => Except.ok [vint 1, vint 2]⟩

/-- C8, witness: the analysis evaluated on the concrete backend. -/
theorem analyze_field_exact_witness :
    analyze_field_exact exactBackend "a" = Except.ok
      ⟨3, if 0 < (4 : Nat) then ((3 : Nat) : ℚ) / ((4 : Nat) : ℚ) * 100 else 0,
       ([vint 1, vint 2].length)⟩ :=
  (analyze_field_exact_spec exactBackend "a" 4 3 [vint 1, vint 2] rfl rfl rfl).1

/-! ### C9 -/

/-- C9: for every field other than `_id`, the counts in the type histogram
sum to exactly the number of sampled records containing the field, which
is also the presence count stored in the coverage entry — each record
containing the field contributes one tally to one type bucket. -/
theorem type_histogram_consistency (sample : List Record) (f : String)
    (_hf : f ≠ "_id") :
    ∀ hgram, findEntry (fieldTypes sample) f = some hgram →
      ((hgram.map Prod.snd).sum = (sample.filter (fun d => d.hasKey f)).length ∧
       ∀ ci, findEntry (fieldCoverage sample) f = some ci →
         (hgram.map Prod.snd).sum = ci.count) := by
  intro hgram h
  rcases findEntry_map_inv _ _ _ _ h with ⟨hg, -⟩
  subst hg
  have hsum := valueCounts_sum
    ((sample.filter (fun d => d.hasKey f)).map (fun d => typeName (d.getVal f)))
  rw [List.length_map] at hsum
  refine ⟨hsum, ?_⟩
  intro ci hci
  rcases findEntry_map_inv _ _ _ _ hci with ⟨hc, -⟩
  subst hc
  exact hsum

/-- C9, witness: in the three-record scenario every record carries field
`a` with an integer value, so the histogram is one bucket of 3 and the
presence count is 3. -/
theorem type_histogram_witness :
    (([(("int" : String), (3 : Nat))]).map Prod.snd).sum =
      (scenarioSample.filter (fun d => d.hasKey "a")).length :=
  (type_histogram_consistency scenarioSample "a" (by decide)
    [("int", 3)] (by decide)).1

/-! ### C7 -/

theorem pairwise_map_fst {α β : Type} {R : α → α → Prop} :
    ∀ (l : List (α × β)), (l.map Prod.fst).Pairwise R →
      l.Pairwise (fun p q => R p.1 q.1)
  | [], _ => List.Pairwise.nil
  | p :: rest, h => by
    rw [List.map_cons, List.pairwise_cons] at h
    rw [List.pairwise_cons]
    exact ⟨fun q hq => h.1 q.1 (List.mem_map_of_mem Prod.fst hq),
           pairwise_map_fst rest h.2⟩

/-- C7: whenever a field receives a value-frequency table, each table
entry's count is the number of sampled values whose canonical string form
equals the entry's key (so values with identical string forms share one
bucket), the table length is `min 10 (number of distinct string forms)`,
counts are non-increasing along the table, and entries with equal counts
appear in order of the first encounter of their string form in the value
list. -/
theorem value_distribution_table_spec (sample : List Record) (f : String)
    (t : List (String × Nat))
    (ht : findEntry (valueDistributions sample) f = some t) :
    (∀ p ∈ t, p.2 = ((fieldValues sample f).map pyStr).count p.1) ∧
    t.length = min 10 ((fieldValues sample f).map pyStr).dedup.length ∧
    (∀ a b, List.Sublist [a, b] t → b.2 ≤ a.2) ∧
    (∀ a b, List.Sublist [a, b] t → a.2 = b.2 →
      firstIdx ((fieldValues sample f).map pyStr) a.1 <
        firstIdx ((fieldValues sample f).map pyStr) b.1) := by
  have hnd : ((allFields sample).filter (fun f => f ≠ "_id")).Nodup :=
    (pySet_nodup _).filter _
  by_cases hks : f ∈ (allFields sample).filter (fun f => f ≠ "_id")
  case neg =>
    rw [valueDistributions, findEntry_filterMap_of_not_mem _ _ _ hks] at ht
    cases ht
  case pos =>
  rw [valueDistributions, findEntry_filterMap_of_mem _ _ _ hks hnd] at ht
  have heq : t = (sortByCountDesc (valueCounts
      ((fieldValues sample f).map pyStr))).take 10 := by
    rw [mkDistribution] at ht
    cases hv : fieldValues sample f with
    | nil => rw [hv] at ht; cases ht
    | cons v rest =>
      rw [hv] at ht
      simp only [List.head?_cons] at ht
      by_cases hcomp : isComposite v = true
      · rw [if_pos hcomp] at ht; cases ht
      · rw [if_neg hcomp] at ht
        exact (Option.some.inj ht).symm
  obtain ⟨hmem, hndk, hord, -⟩ :=
    valueCounts_inv ((fieldValues sample f).map pyStr)
  have hperm : List.Perm (sortByCountDesc (valueCounts
      ((fieldValues sample f).map pyStr)))
      (valueCounts ((fieldValues sample f).map pyStr)) :=
    List.perm_insertionSort _ _
  have hsub : List.Sublist t (sortByCountDesc (valueCounts
      ((fieldValues sample f).map pyStr))) := by
    rw [heq]; exact List.take_sublist 10 _
  have hQ : (sortByCountDesc (valueCounts
      ((fieldValues sample f).map pyStr))).Pairwise
      (StableDescOrder (firstIdx ((fieldValues sample f).map pyStr))) :=
    pairwise_insertionSort _ _ (pairwise_map_fst _ hord)
  have hQt := hQ.sublist hsub
  refine ⟨?_, ?_, ?_, ?_⟩
  · intro p hp
    exact valueCounts_count _ p (hperm.mem_iff.mp (hsub.subset hp))
  · rw [heq, List.length_take, hperm.length_eq, valueCounts_length]
  · intro a b hab
    have hQab := List.pairwise_pair.mp (hQt.sublist hab)
    rcases hQab with h | ⟨h, -⟩
    · exact le_of_lt h
    · exact le_of_eq h.symm
  · intro a b hab habeq
    have hQab := List.pairwise_pair.mp (hQt.sublist hab)
    rcases hQab with h | ⟨-, h⟩
    · rw [habeq] at h
      exact absurd h (lt_irrefl _)
    · exact h

/-- C7, witness: field `a` of the three-record scenario has values
`1, 2, 2`, giving the table `[("2", 2), ("1", 1)]`; all four conclusions
hold for it. -/
theorem value_distribution_table_witness :
    (∀ p ∈ [(("2" : String), (2 : Nat)), ("1", 1)],
      p.2 = ((fieldValues scenarioSample "a").map pyStr).count p.1) ∧
    ([(("2" : String), (2 : Nat)), ("1", 1)]).length =
      min 10 ((fieldValues scenarioSample "a").map pyStr).dedup.length ∧
    (∀ a b, List.Sublist [a, b] [(("2" : String), (2 : Nat)), ("1", 1)] →
      b.2 ≤ a.2) ∧
    (∀ a b, List.Sublist [a, b] [(("2" : String), (2 : Nat)), ("1", 1)] →
      a.2 = b.2 →
      firstIdx ((fieldValues scenarioSample "a").map pyStr) a.1 <
        firstIdx ((fieldValues scenarioSample "a").map pyStr) b.1) :=
  value_distribution_table_spec scenarioSample "a" [("2", 2), ("1", 1)] (by decide)
